import Mathlib

/-!
Shallow embedding of `graphics.hh` (namespace `graphics`): packed-colour
helpers `encode_rgb` / `decode_rgb`, the generic broadcasting arithmetic
`math::reduce` with `math::vector_min_size`, the `canvas` template with
`fill`, `subcanvas_view` und `save_as_ppm`, and the vector stream
formatter `math::operators::operator<<`.

Machine integers are modelled as `Nat` with explicit `% 2 ^ 32` where the
C++ relies on unsigned wraparound (the `--h < height` loop in
`canvas::fill`).  Buffers are `List α`; a `std::span` into a parent
buffer is modelled as a start offset plus one-past-the-end offset into
the parent's list (`SpanCanvas`).
-/

set_option autoImplicit false

/-- `constexpr uint32_t encode_rgb(uint8_t r, uint8_t g, uint8_t b)`:
`r | (g << 8) | (b << (2*8)) | 0xff000000`.  The arguments are bytes
(`uint8_t`), so the claims carry hypotheses `r, g, b ≤ 255`. -/
def encode_rgb (r g b : Nat) : Nat :=
  r ||| (g <<< 8) ||| (b <<< (2 * 8)) ||| 0xff000000

/-- `std::tuple<uint8_t,uint8_t,uint8_t> decode_rgb(uint32_t color)`:
`{(color & 0x000000FF) >> 0, (color & 0x0000FF00) >> 8, (color & 0x00FF0000) >> 16}`. -/
def decode_rgb (color : Nat) : Nat × Nat × Nat :=
  ((color &&& 0x000000FF) >>> (8 * 0),
   (color &&& 0x0000FF00) >>> (8 * 1),
   (color &&& 0x00FF0000) >>> (8 * 2))

/-- An operand of `math::reduce`: either a `scalar` (arithmetic value) or a
`vector` (fixed-arity positionally indexable container, modelled as a list). -/
inductive Operand (α : Type) where
  | scalar (s : α)
  | vec (v : List α)

/-- The arity a single operand contributes to `math::vector_min_size`:
a vector contributes `std::tuple_size`, a scalar contributes
`~std::size_t{}` = `2 ^ 64 - 1` (so it never constrains the minimum). -/
def opSize {α : Type} : Operand α → Nat
  | .scalar _ => 2 ^ 64 - 1
  | .vec v => v.length

/-- `math::vector_min_size<Lhs, Rhs>`: `std::min` of the contributions. -/
def vector_min_size {α : Type} (lhs rhs : Operand α) : Nat :=
  min (opSize lhs) (opSize rhs)

/-- `math::reduce<binary_operator>(lhs, rhs)`, `requires vector<Lhs> || vector<Rhs>`:
builds `std::array { op(element_I(lhs), element_I(rhs))... }` for
`I = 0, ..., N-1` with `N = vector_min_size<Lhs, Rhs>`, substituting a
scalar operand itself at every position.  The scalar/scalar arm is outside
the C++ `requires` clause; the model returns `[]` there and every theorem
stays in the constrained domain.  All indices `i < N` are in bounds, so the
`getD` default is never read. -/
def reduce {α : Type} [Inhabited α] (op : α → α → α) (lhs rhs : Operand α) : List α :=
  let N := vector_min_size lhs rhs
  match lhs, rhs with
  | .vec a, .scalar s => (List.range N).map fun i => op (a.getD i default) s
  | .scalar s, .vec b => (List.range N).map fun i => op s (b.getD i default)
  | .vec a, .vec b => (List.range N).map fun i => op (a.getD i default) (b.getD i default)
  | .scalar _, .scalar _ => []

/-- `math::operators::operator<<` for a vector whose elements print as the
given strings: the fold `((void)(os << (I > 0 ? ", " : "(") << get<I>(vec)), ...)`
over `I = 0, ..., tuple_size - 1` followed by `os << ")"`, modelling the
stream as the string written so far. -/
def vecToString (elems : List String) : String :=
  ((List.range elems.length).foldl
    (fun os i => os ++ ((if i > 0 then ", " else "(") ++ elems.getD i "")) "") ++ ")"

/-- `graphics::canvas<Data>` for owning storage: `data` (linear buffer),
`width`, `height`, `stride`. -/
structure Canvas (α : Type) where
  data : List α
  width : Nat
  height : Nat
  stride : Nat

/-- One step of the unsigned-`--h` in `canvas::fill`: decrement of a
32-bit unsigned value, wrapping at zero. -/
def dec32 (h : Nat) : Nat := (h + (2 ^ 32 - 1)) % 2 ^ 32

/-- `std::fill(&data[cursor], &data[cursor] + width, v)`: write `v` at
positions `cursor, cursor + 1, ..., cursor + width - 1` of the buffer. -/
def writeRow {α : Type} (store : List α) (cursor width : Nat) (v : α) : List α :=
  (List.range width).foldl (fun d j => d.set (cursor + j) v) store

/-- The loop of `canvas::fill`:
`for (auto cursor = 0u, h = height; --h < height; cursor += stride)`.
Both `cursor` (`auto cursor = 0u`) and `h` are 32-bit unsigned: the
condition decrements `h` with unsigned wraparound before testing, so the
body runs for `h = height - 1, ..., 0` and stops when `h` wraps to
`2 ^ 32 - 1`; `cursor += stride` likewise wraps mod `2 ^ 32`.
`fuel = 2 ^ 32` bounds the recursion; the termination theorem shows the
loop exits after exactly `height` iterations, so the fuel never binds for
any unsigned `height`. -/
def fillLoop {α : Type} (fuel : Nat) (store : List α) (cursor h width height stride : Nat)
    (v : α) : List α :=
  match fuel with
  | 0 => store
  | fuel + 1 =>
    if dec32 h < height then
      fillLoop fuel (writeRow store cursor width v) ((cursor + stride) % 2 ^ 32) (dec32 h)
        width height stride v
    else store

/-- `canvas::fill(new_value)` on an owning canvas. -/
def Canvas.fill {α : Type} (c : Canvas α) (v : α) : Canvas α :=
  { c with data := fillLoop (2 ^ 32) c.data 0 c.height c.width c.height c.stride v }

/-- A `canvas<std::span<value_type>>` returned by `subcanvas_view`: the
span is the index range `[off, ending)` of the parent's buffer. -/
structure SpanCanvas where
  off : Nat
  ending : Nat
  width : Nat
  height : Nat
  stride : Nat
deriving DecidableEq, Repr

/-- `canvas::subcanvas_view(p1, p2, getxy)` with extracted coordinates
`(x1, y1)` and `(x2, y2)` (32-bit unsigned values, so `< 2 ^ 32`): returns
the value-initialised canvas on identical corners, otherwise swaps
`x1 > x2` and `y1 > y2` and returns
`{ { &data[y1*stride + x1], &data[0] + height*stride }, unsigned(x2-x1+1), unsigned(y2-y1+1), stride }`.
The member offsets `y1*stride + x1` and `height*stride` are computed in
32-bit unsigned arithmetic (wrap mod `2 ^ 32`), and the `unsigned(...)`
casts of the width/height expressions truncate mod `2 ^ 32`.  (In the
value-initialised `canvas` the default member initialiser `stride = width`
makes every field `0`.) -/
def Canvas.subcanvas_view {α : Type} (c : Canvas α) (x1 y1 x2 y2 : Nat) : SpanCanvas :=
  if x1 = x2 ∧ y1 = y2 then { off := 0, ending := 0, width := 0, height := 0, stride := 0 }
  else
    let xs := if x1 > x2 then (x2, x1) else (x1, x2)
    let ys := if y1 > y2 then (y2, y1) else (y1, y2)
    { off := (ys.1 * c.stride + xs.1) % 2 ^ 32
      ending := (c.height * c.stride) % 2 ^ 32
      width := (xs.2 - xs.1 + 1) % 2 ^ 32
      height := (ys.2 - ys.1 + 1) % 2 ^ 32
      stride := c.stride }

/-- `canvas::fill` on a sub-view: the span indexes the parent's buffer at
`off + i`, so the fill loop runs with its cursor based at `off`, writing
into the parent's storage. -/
def SpanCanvas.fill {α : Type} (sc : SpanCanvas) (store : List α) (v : α) : List α :=
  fillLoop (2 ^ 32) store sc.off sc.height sc.width sc.height sc.stride v

/-- `canvas::save_as_ppm(filename, rgb)` as the byte sequence written to
the stream: header `"P6\n" << width << ' ' << height << "\n255\n"`
(decimal ASCII for the numbers), then for each row `y` and column `x` the
three bytes of `rgb(data[y * stride + x])`. -/
def save_as_ppm {α : Type} [Inhabited α] (c : Canvas α) (rgb : α → Nat × Nat × Nat) :
    List Nat :=
  ([80, 54, 10] ++ (Nat.toDigits 10 c.width).map Char.toNat ++ [32]
      ++ (Nat.toDigits 10 c.height).map Char.toNat ++ [10, 50, 53, 53, 10])
    ++ (List.range c.height).flatMap fun y =>
        (List.range c.width).flatMap fun x =>
          let t := rgb (c.data.getD (y * c.stride + x) default)
          [t.1, t.2.1, t.2.2]

/-- Reference form of the `canvas::fill` traversal: write `rows` rows of
`width` cells, starting at `cursor` and advancing by `stride`.  The
bridge theorem shows `fillLoop` with wraparound counter equals this. -/
def fillRows {α : Type} (store : List α) (cursor rows width stride : Nat) (v : α) : List α :=
  match rows with
  | 0 => store
  | r + 1 => fillRows (writeRow store cursor width v) (cursor + stride) r width stride v

/-- Number of iterations the `fill` loop condition admits, starting from
counter value `h` with bound `height`, with enough fuel. -/
def loopIters (fuel h height : Nat) : Nat :=
  match fuel with
  | 0 => 0
  | fuel + 1 =>
    if dec32 h < height then loopIters fuel (dec32 h) height + 1 else 0

/-- Iterations executed by `canvas::fill` on a canvas of the given height. -/
def fillIterations (height : Nat) : Nat := loopIters (2 ^ 32) height height

/-! ### Library-level helper lemmas -/

theorem getD_set {α : Type} (l : List α) (i p : Nat) (v d : α) :
    (l.set i v).getD p d = if i = p ∧ i < l.length then v else l.getD p d := by
  simp only [List.getD_eq_getElem?_getD, List.getElem?_set]
  by_cases h1 : i = p
  · subst h1
    by_cases h2 : i < l.length
    · simp [h2]
    · rw [if_pos rfl, if_neg h2, if_neg (fun hc => h2 hc.2),
        List.getElem?_eq_none (by omega)]
  · simp [h1]

theorem getD_eq_getD {α : Type} (l : List α) (i : Nat) (d1 d2 : α) (h : i < l.length) :
    l.getD i d1 = l.getD i d2 := by
  simp [List.getD_eq_getElem?_getD, List.getElem?_eq_getElem h]

theorem getD_map_range {α : Type} (N i : Nat) (f : Nat → α) (d : α) (hi : i < N) :
    ((List.range N).map f).getD i d = f i := by
  simp [List.getD_eq_getElem?_getD, List.getElem?_map, List.getElem?_range hi]

theorem lin_component_eq (s a b a2 b2 : Nat) (hb : b < s) (hb2 : b2 < s)
    (h : a * s + b = a2 * s + b2) : b = b2 := by
  have e1 := Nat.mul_add_mod s a b
  have e2 := Nat.mul_add_mod s a2 b2
  rw [Nat.mul_comm s a, Nat.mod_eq_of_lt hb, h] at e1
  rw [Nat.mul_comm s a2, Nat.mod_eq_of_lt hb2] at e2
  omega

theorem pix_lt (S W H L x y : Nat) (hx : x < W) (hy : y < H)
    (hlen : S * (H - 1) + W ≤ L) : y * S + x < L := by
  have h1 : y * S ≤ (H - 1) * S := Nat.mul_le_mul_right S (by omega)
  have h2 : (H - 1) * S = S * (H - 1) := Nat.mul_comm _ _
  omega

/-! ### Lemmas about `writeRow` and `fillRows` -/

theorem writeRow_zero {α : Type} (store : List α) (cursor : Nat) (v : α) :
    writeRow store cursor 0 v = store := rfl

theorem writeRow_succ {α : Type} (store : List α) (cursor w : Nat) (v : α) :
    writeRow store cursor (w + 1) v = (writeRow store cursor w v).set (cursor + w) v := by
  unfold writeRow
  rw [List.range_succ, List.foldl_append]
  rfl

theorem length_writeRow {α : Type} (store : List α) (cursor w : Nat) (v : α) :
    (writeRow store cursor w v).length = store.length := by
  induction w with
  | zero => rfl
  | succ w ih => rw [writeRow_succ, List.length_set, ih]

theorem getD_writeRow {α : Type} (store : List α) (cursor w : Nat) (v d : α) (p : Nat) :
    (writeRow store cursor w v).getD p d =
      if cursor ≤ p ∧ p < cursor + w ∧ p < store.length then v
      else store.getD p d := by
  induction w with
  | zero =>
    rw [writeRow_zero, if_neg (by omega)]
  | succ w ih =>
    rw [writeRow_succ, getD_set, length_writeRow, ih]
    split_ifs <;> first | rfl | omega

theorem length_fillRows {α : Type} (rows : Nat) : ∀ (store : List α) (cursor width stride : Nat)
    (v : α), (fillRows store cursor rows width stride v).length = store.length := by
  induction rows with
  | zero => intro store cursor width stride v; rfl
  | succ r ih =>
    intro store cursor width stride v
    rw [fillRows, ih, length_writeRow]

theorem getD_fillRows_untouched {α : Type} (rows : Nat) :
    ∀ (store : List α) (cursor width stride : Nat) (v d : α) (p : Nat),
    (∀ r, r < rows → ∀ cc, cc < width → p ≠ cursor + r * stride + cc) →
    (fillRows store cursor rows width stride v).getD p d = store.getD p d := by
  induction rows with
  | zero => intro store cursor width stride v d p _; rfl
  | succ r ih =>
    intro store cursor width stride v d p h
    rw [fillRows, ih]
    · rw [getD_writeRow, if_neg]
      intro hcon
      exact h 0 (by omega) (p - cursor) (by omega) (by simp; omega)
    · intro r2 hr2 cc hcc
      have := h (r2 + 1) (by omega) cc hcc
      rw [Nat.succ_mul] at this
      omega

theorem getD_fillRows_touched {α : Type} (rows : Nat) :
    ∀ (store : List α) (cursor width stride : Nat) (v d : α) (p r0 cc0 : Nat),
    r0 < rows → cc0 < width → p = cursor + r0 * stride + cc0 → p < store.length →
    (fillRows store cursor rows width stride v).getD p d = v := by
  induction rows with
  | zero => intro store cursor width stride v d p r0 cc0 hr0 _ _ _; omega
  | succ r ih =>
    intro store cursor width stride v d p r0 cc0 hr0 hcc0 hp hlen
    rw [fillRows]
    by_cases hex : ∃ r2, r2 < r ∧ ∃ cc, cc < width ∧ p = (cursor + stride) + r2 * stride + cc
    · obtain ⟨r2, hr2, cc, hcc, hp2⟩ := hex
      exact ih _ _ _ _ _ _ _ r2 cc hr2 hcc hp2 (by rw [length_writeRow]; exact hlen)
    · have hr00 : r0 = 0 := by
        by_contra h0
        apply hex
        obtain ⟨r1, rfl⟩ : ∃ r1, r0 = r1 + 1 := ⟨r0 - 1, by omega⟩
        rw [Nat.succ_mul] at hp
        exact ⟨r1, by omega, cc0, hcc0, by omega⟩
      subst hr00
      rw [getD_fillRows_untouched]
      · rw [getD_writeRow, if_pos]
        exact ⟨by omega, by omega, hlen⟩
      · intro r2 hr2 cc hcc hcon
        exact hex ⟨r2, by omega, cc, hcc, hcon⟩

/-! ### The wraparound loop: bridge to `fillRows` and iteration count -/

theorem dec32_succ (h : Nat) (hh : h < 2 ^ 32) : dec32 (h + 1) = h := by
  unfold dec32
  have e : h + 1 + (2 ^ 32 - 1) = h + 2 ^ 32 := by omega
  rw [e, Nat.add_mod_right, Nat.mod_eq_of_lt hh]

theorem dec32_zero : dec32 0 = 2 ^ 32 - 1 := by decide

theorem fillLoop_succ {α : Type} (fuel : Nat) (store : List α)
    (cursor h width height stride : Nat) (v : α) :
    fillLoop (fuel + 1) store cursor h width height stride v =
      if dec32 h < height then
        fillLoop fuel (writeRow store cursor width v) ((cursor + stride) % 2 ^ 32)
          (dec32 h) width height stride v
      else store := rfl

theorem fillLoop_pos {α : Type} (fuel : Nat) (hf : 0 < fuel) (store : List α)
    (cursor h width height stride : Nat) (v : α) :
    fillLoop fuel store cursor h width height stride v =
      if dec32 h < height then
        fillLoop (fuel - 1) (writeRow store cursor width v) ((cursor + stride) % 2 ^ 32)
          (dec32 h) width height stride v
      else store := by
  obtain ⟨f, rfl⟩ : ∃ f, fuel = f + 1 := ⟨fuel - 1, by omega⟩
  simp only [Nat.add_sub_cancel]
  exact fillLoop_succ f store cursor h width height stride v

theorem fillLoop_width_zero {α : Type} (fuel : Nat) :
    ∀ (store : List α) (cursor h height stride : Nat) (v : α),
      fillLoop fuel store cursor h 0 height stride v = store := by
  induction fuel with
  | zero => intro store cursor h height stride v; rfl
  | succ fuel ih =>
    intro store cursor h height stride v
    rw [fillLoop_succ]
    split_ifs
    · rw [writeRow_zero, ih]
    · rfl

theorem fillLoop_eq_fillRows {α : Type} (width height stride : Nat) (v : α)
    (hheight : height < 2 ^ 32) :
    ∀ (h fuel : Nat) (store : List α) (cursor : Nat), h ≤ height → h ≤ fuel →
      (∀ y, y < h → cursor + y * stride < 2 ^ 32) →
      fillLoop fuel store cursor h width height stride v =
        fillRows store cursor h width stride v := by
  intro h
  induction h with
  | zero =>
    intro fuel store cursor _ _ _
    match fuel with
    | 0 => rfl
    | fuel + 1 =>
      rw [fillLoop, if_neg]
      · rfl
      · rw [dec32_zero]; omega
  | succ h ih =>
    intro fuel store cursor hle hfuel hcur
    match fuel with
    | fuel + 1 =>
      rw [fillLoop, if_pos, dec32_succ h (by omega), fillRows]
      · rcases Nat.eq_zero_or_pos h with hz | hpos
        · subst hz
          rw [ih fuel _ _ (by omega) (by omega) (by intro y hy; omega)]
          rfl
        · have hcs : cursor + stride < 2 ^ 32 := by
            have := hcur 1 (by omega)
            omega
          rw [Nat.mod_eq_of_lt hcs]
          apply ih fuel _ _ (by omega) (by omega)
          intro y hy
          have := hcur (y + 1) (by omega)
          rw [Nat.succ_mul] at this
          omega
      · rw [dec32_succ h (by omega)]; omega

theorem loopIters_eq_aux (height : Nat) (hheight : height < 2 ^ 32) :
    ∀ (h fuel : Nat), h ≤ height → h ≤ fuel → loopIters fuel h height = h := by
  intro h
  induction h with
  | zero =>
    intro fuel _ _
    match fuel with
    | 0 => rfl
    | fuel + 1 =>
      rw [loopIters, if_neg]
      rw [dec32_zero]; omega
  | succ h ih =>
    intro fuel hle hfuel
    match fuel with
    | fuel + 1 =>
      rw [loopIters, if_pos, dec32_succ h (by omega)]
      · rw [ih fuel (by omega) (by omega)]
      · rw [dec32_succ h (by omega)]; omega

/-! ### Claim theorems -/

/-- Counterexample to claim C1 as stated: at corners `(0, 0)` and
`(2^32 - 1, 1)` — in-range unsigned coordinates — the `unsigned(x2-x1+1)`
cast at the view construction truncates, so the program stores width
`(2^32 - 1 - 0 + 1) mod 2^32 = 0`, not `x2 - x1 + 1 = 2^32`. -/
theorem subcanvas_view_geometry_refuted :
    ((Canvas.mk ([] : List Int) 4 4 4).subcanvas_view 0 0 (2 ^ 32 - 1) 1).width ≠
      (2 ^ 32 - 1) - 0 + 1 := by decide

/-- Claim C1 (amended): for every parent canvas and corners whose extracted
coordinates `(x1, y1)`, `(x2, y2)` differ, `subcanvas_view` returns a view
whose width and height are the normalised corner arithmetic computed in
32-bit unsigned arithmetic — width `(x2 - x1 + 1) % 2 ^ 32`, height
`(y2 - y1 + 1) % 2 ^ 32` after swapping so corners may come in either
order — whose stride is the parent's, and whose backing reference starts
at the unsigned linear offset `(y1 * stride + x1) % 2 ^ 32`. -/
theorem subcanvas_view_geometry {α : Type} (c : Canvas α) (x1 y1 x2 y2 : Nat)
    (hne : ¬(x1 = x2 ∧ y1 = y2)) :
    (c.subcanvas_view x1 y1 x2 y2).width = (max x1 x2 - min x1 x2 + 1) % 2 ^ 32 ∧
    (c.subcanvas_view x1 y1 x2 y2).height = (max y1 y2 - min y1 y2 + 1) % 2 ^ 32 ∧
    (c.subcanvas_view x1 y1 x2 y2).stride = c.stride ∧
    (c.subcanvas_view x1 y1 x2 y2).off = (min y1 y2 * c.stride + min x1 x2) % 2 ^ 32 := by
  simp only [Canvas.subcanvas_view, if_neg hne]
  split_ifs with hx hy hy2 <;> dsimp only
  · refine ⟨by omega, by omega, trivial, ?_⟩
    rw [show min y1 y2 = y2 by omega, show min x1 x2 = x2 by omega]
  · refine ⟨by omega, by omega, trivial, ?_⟩
    rw [show min y1 y2 = y1 by omega, show min x1 x2 = x2 by omega]
  · refine ⟨by omega, by omega, trivial, ?_⟩
    rw [show min y1 y2 = y2 by omega, show min x1 x2 = x1 by omega]
  · refine ⟨by omega, by omega, trivial, ?_⟩
    rw [show min y1 y2 = y1 by omega, show min x1 x2 = x1 by omega]

/-- Witness for C1 at a concrete input: a 4×4 parent with stride 4, corners
(3,2) and (1,0) given in reversed order. -/
theorem subcanvas_view_geometry_holds :
    (Canvas.mk (List.replicate 16 (0 : Int)) 4 4 4).subcanvas_view 3 2 1 0 =
      SpanCanvas.mk 1 16 3 3 4 := by
  have h := subcanvas_view_geometry (Canvas.mk (List.replicate 16 (0 : Int)) 4 4 4)
    3 2 1 0 (by decide)
  obtain ⟨h1, h2, h3, h4⟩ := h
  have hend : ((Canvas.mk (List.replicate 16 (0 : Int)) 4 4 4).subcanvas_view 3 2 1 0).ending
      = 16 := by decide
  cases hv : (Canvas.mk (List.replicate 16 (0 : Int)) 4 4 4).subcanvas_view 3 2 1 0
  rw [hv] at h1 h2 h3 h4 hend
  simp only at h1 h2 h3 h4 hend
  subst h1 h2 h3 h4 hend
  rfl

/-- Counterexample to claim C3 as stated: with `width = stride = 2^31` and
`height = 3` over a storage of `2^32 + 2^31` cells (the storage invariant
`stride*(height-1)+width ≤ length` holds), the 32-bit unsigned row cursor
of `canvas::fill` wraps: the third row's cursor is
`(2^31 + 2^31) mod 2^32 = 0`, so the program rewrites row 0 and never
writes pixel `(0, 2)` at linear offset `2 * 2^31 + 0 = 2^32`, which keeps
its old value `0` instead of the fill value `7`. -/
theorem fill_visible_and_padding_refuted :
    ((Canvas.mk (List.replicate (2 ^ 32 + 2 ^ 31) (0 : Int)) (2 ^ 31) 3 (2 ^ 31)).fill
      7).data.getD (2 * 2 ^ 31 + 0) 0 ≠ 7 := by
  simp only [Canvas.fill]
  rw [fillLoop_pos (2 ^ 32) (by norm_num), if_pos (show dec32 3 < 3 by decide),
    show dec32 3 = 2 by decide, show ((0 + 2 ^ 31) % 2 ^ 32 : Nat) = 2 ^ 31 by decide]
  rw [fillLoop_pos (2 ^ 32 - 1) (by norm_num), if_pos (show dec32 2 < 3 by decide),
    show dec32 2 = 1 by decide, show ((2 ^ 31 + 2 ^ 31) % 2 ^ 32 : Nat) = 0 by decide]
  rw [fillLoop_pos (2 ^ 32 - 1 - 1) (by norm_num), if_pos (show dec32 1 < 3 by decide),
    show dec32 1 = 0 by decide, show ((0 + 2 ^ 31) % 2 ^ 32 : Nat) = 2 ^ 31 by decide]
  rw [fillLoop_pos (2 ^ 32 - 1 - 1 - 1) (by norm_num),
    if_neg (show ¬(dec32 0 < 3) by decide)]
  rw [getD_writeRow, if_neg (by omega), getD_writeRow, if_neg (by omega),
    getD_writeRow, if_neg (by omega)]
  rw [List.getD_eq_getElem?_getD, List.getElem?_replicate, if_pos (by omega)]
  decide

/-- Claim C3 (amended): after `fill v` on a canvas with `stride ≥ width`
whose pixel extent `stride*(height-1)+width` fits the 32-bit unsigned index
space (so the unsigned row cursor never wraps), every visible pixel
`(x, y)` (`x < width`, `y < height`) holds `v`, and every storage element
at a column index `≥ width` within a row is unchanged. -/
theorem fill_visible_and_padding {α : Type} (c : Canvas α) (v d : α)
    (hws : c.width ≤ c.stride) (hh : c.height < 2 ^ 32)
    (hlen : c.stride * (c.height - 1) + c.width ≤ c.data.length)
    (hfit : c.stride * (c.height - 1) + c.width ≤ 2 ^ 32) :
    (∀ x y, x < c.width → y < c.height →
      ((c.fill v).data).getD (y * c.stride + x) d = v) ∧
    (∀ x y, c.width ≤ x → x < c.stride →
      ((c.fill v).data).getD (y * c.stride + x) d = c.data.getD (y * c.stride + x) d) := by
  by_cases hw0 : c.width = 0
  · constructor
    · intro x y hx _
      exact absurd hx (by omega)
    · intro x y _ _
      show (fillLoop (2 ^ 32) c.data 0 c.height c.width c.height c.stride v).getD
        (y * c.stride + x) d = c.data.getD (y * c.stride + x) d
      rw [hw0, fillLoop_width_zero]
  · have hbridge : (c.fill v).data = fillRows c.data 0 c.height c.width c.stride v := by
      apply fillLoop_eq_fillRows c.width c.height c.stride v hh c.height (2 ^ 32) c.data 0
        (Nat.le_refl _) (by omega)
      intro y hy
      have h1 : y * c.stride ≤ (c.height - 1) * c.stride :=
        Nat.mul_le_mul_right c.stride (by omega)
      have h2 : (c.height - 1) * c.stride = c.stride * (c.height - 1) := Nat.mul_comm _ _
      omega
    rw [hbridge]
    constructor
    · intro x y hx hy
      exact getD_fillRows_touched c.height c.data 0 c.width c.stride v d _ y x hy hx
        (by omega) (pix_lt c.stride c.width c.height c.data.length x y hx hy hlen)
    · intro x y hxw hxs
      apply getD_fillRows_untouched
      intro r _ cc hcc hcon
      have hxe : x = cc := lin_component_eq c.stride y x r cc hxs (by omega) (by omega)
      omega

/-- Witness for C3: a 2×2 canvas with stride 3 over 8 zeroed cells, filled
with 5; pixel (0,1) (offset 3) becomes 5, padding cell at offset 2 stays 0. -/
theorem fill_visible_and_padding_holds :
    ((Canvas.mk (List.replicate 8 (0 : Int)) 2 2 3).fill 5).data.getD 3 0 = 5 ∧
    ((Canvas.mk (List.replicate 8 (0 : Int)) 2 2 3).fill 5).data.getD 2 0 = 0 := by
  have h := fill_visible_and_padding (Canvas.mk (List.replicate 8 (0 : Int)) 2 2 3) 5 0
    (by decide) (by decide) (by decide) (by decide)
  constructor
  · have h1 := h.1 0 1 (by decide) (by decide)
    norm_num at h1
    exact h1
  · have h2 := h.2 2 0 (by decide) (by decide)
    norm_num at h2
    exact h2

/-- Claim C6: `subcanvas_view` on identical extracted coordinates returns the
empty/default zero-size canvas (no backing: the span and all geometry fields
are zero), and `fill` on that canvas writes nothing. -/
theorem subcanvas_view_degenerate {α : Type} (c : Canvas α) (x y : Nat)
    (store : List α) (v : α) :
    c.subcanvas_view x y x y = SpanCanvas.mk 0 0 0 0 0 ∧
    SpanCanvas.fill (c.subcanvas_view x y x y) store v = store := by
  have h1 : c.subcanvas_view x y x y = SpanCanvas.mk 0 0 0 0 0 := by
    unfold Canvas.subcanvas_view
    rw [if_pos ⟨rfl, rfl⟩]
  refine ⟨h1, ?_⟩
  rw [h1]
  unfold SpanCanvas.fill
  exact fillLoop_eq_fillRows 0 0 0 v (by omega) 0 (2 ^ 32) store 0 (by omega) (by omega)
    (by intro y hy; omega)

/-- Claim C10: the row loop of `canvas::fill`, whose condition is the
unsigned wraparound test `--h < height`, runs exactly `height` iterations
for every unsigned `height` (in particular `fill` with `height = 0` writes
nothing). -/
theorem fill_loop_runs_height_times (height : Nat) (hh : height < 2 ^ 32) :
    fillIterations height = height ∧
    (∀ (c : Canvas Int) (v : Int), c.height = 0 → (c.fill v).data = c.data) := by
  constructor
  · exact loopIters_eq_aux height hh height (2 ^ 32) (Nat.le_refl _) (by omega)
  · intro c v hc
    show fillLoop (2 ^ 32) c.data 0 c.height c.width c.height c.stride v = c.data
    rw [hc]
    exact fillLoop_eq_fillRows c.width 0 c.stride v (by omega) 0 (2 ^ 32) c.data 0
      (by omega) (by omega) (by intro y hy; omega)

/-- Witness for C10, including the maximum unsigned height for the iteration
count and a height-0 canvas for the no-write part. -/
theorem fill_loop_runs_height_times_holds :
    fillIterations 3 = 3 ∧ ((Canvas.mk [(9 : Int)] 1 0 1).fill 2).data = [(9 : Int)] :=
  ⟨(fill_loop_runs_height_times 3 (by decide)).1,
   (fill_loop_runs_height_times 0 (by decide)).2 (Canvas.mk [(9 : Int)] 1 0 1) 2 rfl⟩

/-- Claim C4: for every binary operator `op` (covering the four instantiated
`+ - * /` functors) and operands with at least one vector, position `i` of
the result is `op` of the operands' position-`i` elements, a scalar operand
contributing its value at every position. -/
theorem reduce_broadcast (op : Int → Int → Int) (a b : List Int) (s : Int) (i : Nat)
    (d : Int) (hab : a.length = b.length) (hi : i < a.length) (h64 : a.length < 2 ^ 64) :
    (reduce op (.vec a) (.vec b)).getD i d = op (a.getD i d) (b.getD i d) ∧
    (reduce op (.vec a) (.scalar s)).getD i d = op (a.getD i d) s ∧
    (reduce op (.scalar s) (.vec a)).getD i d = op s (a.getD i d) := by
  have hvv : vector_min_size (Operand.vec a) (Operand.vec b) = a.length := by
    simp [vector_min_size, opSize, ← hab]
  have hvs : vector_min_size (Operand.vec a) (Operand.scalar s) = a.length := by
    simp [vector_min_size, opSize]
    omega
  have hsv : vector_min_size (Operand.scalar s) (Operand.vec a) = a.length := by
    simp [vector_min_size, opSize]
    omega
  refine ⟨?_, ?_, ?_⟩
  · show ((List.range (vector_min_size (Operand.vec a) (Operand.vec b))).map
      fun i => op (a.getD i default) (b.getD i default)).getD i d = _
    rw [hvv, getD_map_range _ _ _ _ hi,
      getD_eq_getD a i default d hi, getD_eq_getD b i default d (by omega)]
  · show ((List.range (vector_min_size (Operand.vec a) (Operand.scalar s))).map
      fun i => op (a.getD i default) s).getD i d = _
    rw [hvs, getD_map_range _ _ _ _ hi, getD_eq_getD a i default d hi]
  · show ((List.range (vector_min_size (Operand.scalar s) (Operand.vec a))).map
      fun i => op s (a.getD i default)).getD i d = _
    rw [hsv, getD_map_range _ _ _ _ hi, getD_eq_getD a i default d hi]

/-- Witness for C4 at concrete vectors and scalar with subtraction. -/
theorem reduce_broadcast_holds :
    (reduce (fun x y => x - y) (.vec [5, 7]) (.vec [2, 3])).getD 1 0 = (4 : Int) ∧
    (reduce (fun x y => x - y) (.vec [5, 7]) (.scalar 2)).getD 1 0 = (5 : Int) ∧
    (reduce (fun x y => x - y) (.scalar 2) (.vec [5, 7])).getD 1 0 = (-5 : Int) := by
  have h := reduce_broadcast (fun x y => x - y) [5, 7] [2, 3] 2 1 0
    (by decide) (by decide) (by decide)
  refine ⟨?_, ?_, ?_⟩
  · rw [h.1]; decide
  · rw [h.2.1]; decide
  · rw [h.2.2]; decide

/-- Claim C5: the result arity of `reduce` is the minimum arity over the
vector operands; a scalar operand never constrains it; with `Na ≤ Nb` only
the first `Na` elements of the longer vector are used. -/
theorem reduce_arity (op : Int → Int → Int) (a b : List Int) (s : Int)
    (h64 : a.length < 2 ^ 64) :
    (reduce op (.vec a) (.vec b)).length = min a.length b.length ∧
    (a.length ≤ b.length →
      reduce op (.vec a) (.vec b) = reduce op (.vec a) (.vec (b.take a.length))) ∧
    (reduce op (.vec a) (.scalar s)).length = a.length ∧
    (reduce op (.scalar s) (.vec a)).length = a.length := by
  refine ⟨?_, ?_, ?_, ?_⟩
  · show ((List.range (vector_min_size (Operand.vec a) (Operand.vec b))).map _).length = _
    simp [vector_min_size, opSize]
  · intro hle
    show ((List.range (vector_min_size (Operand.vec a) (Operand.vec b))).map
        fun i => op (a.getD i default) (b.getD i default)) =
      ((List.range (vector_min_size (Operand.vec a) (Operand.vec (b.take a.length)))).map
        fun i => op (a.getD i default) ((b.take a.length).getD i default))
    have e1 : vector_min_size (Operand.vec a) (Operand.vec b) = a.length := by
      simp [vector_min_size, opSize]
      omega
    have e2 : vector_min_size (Operand.vec a) (Operand.vec (b.take a.length)) =
        a.length := by
      simp [vector_min_size, opSize]
      omega
    rw [e1, e2]
    apply List.map_congr_left
    intro i hi
    rw [List.mem_range] at hi
    have : (b.take a.length).getD i default = b.getD i default := by
      simp only [List.getD_eq_getElem?_getD, List.getElem?_take_of_lt hi]
    rw [this]
  · show ((List.range (vector_min_size (Operand.vec a) (Operand.scalar s))).map _).length = _
    simp [vector_min_size, opSize]
    omega
  · show ((List.range (vector_min_size (Operand.scalar s) (Operand.vec a))).map _).length = _
    simp [vector_min_size, opSize]
    omega

/-- Witness for C5 at concrete vectors of arities 2 and 3. -/
theorem reduce_arity_holds :
    (reduce (fun x y => x + y) (.vec [1, 2]) (.vec [10, 20, 30])).length = 2 ∧
    reduce (fun x y => x + y) (.vec ([1, 2] : List Int)) (.vec [10, 20, 30]) =
      reduce (fun x y => x + y) (.vec [1, 2]) (.vec (([10, 20, 30] : List Int).take 2)) ∧
    (reduce (fun x y => x + y) (.vec [1, 2]) (.scalar (5 : Int))).length = 2 := by
  have h := reduce_arity (fun x y => x + y) [1, 2] [10, 20, 30] 5 (by decide)
  exact ⟨h.1, h.2.1 (by decide), h.2.2.1⟩

theorem foldl_append_shift {β : Type} (f : β → String) (l : List β) (a : String) :
    l.foldl (fun os x => os ++ f x) a = a ++ l.foldl (fun os x => os ++ f x) "" := by
  induction l generalizing a with
  | nil => exact (String.append_empty a).symm
  | cons x xs ih =>
    rw [List.foldl_cons, List.foldl_cons, String.empty_append, ih (a ++ f x), ih (f x),
      String.append_assoc]

theorem string_join_cons (s : String) (l : List String) :
    String.join (s :: l) = s ++ String.join l := by
  show l.foldl (fun r t => r ++ t) ("" ++ s) = s ++ l.foldl (fun r t => r ++ t) ""
  rw [String.empty_append]
  exact foldl_append_shift (fun t => t) l s

theorem join_pieces (rest : List String) :
    (List.range rest.length).foldl (fun os j => os ++ (", " ++ rest.getD j "")) "" =
      String.join (rest.map fun s => ", " ++ s) := by
  induction rest with
  | nil => rfl
  | cons x xs ih =>
    rw [List.length_cons, List.range_succ_eq_map, List.foldl_cons, List.foldl_map]
    simp only [List.getD_cons_zero, List.getD_cons_succ, String.empty_append]
    rw [foldl_append_shift (fun j => ", " ++ xs.getD j "") (List.range xs.length) (", " ++ x),
      ih, List.map_cons, string_join_cons]

/-- Counterexample to claim C9 as stated: on a zero-arity vector the
formatter emits only `")"`, not `"()"` — the leading `"("` is produced as
the first element's prefix inside the fold, which is empty at arity 0. -/
theorem vec_format_zero_arity_refuted : vecToString [] ≠ "()" := by decide

/-- Claim C9 (amended): for arity `N ≥ 1` the stream output is a leading
`"("`, the elements separated by `", "`, and a trailing `")"`; for a
zero-arity vector the output is only `")"` (not the empty pair `"()"`). -/
theorem vec_format (e : String) (rest : List String) :
    vecToString (e :: rest) =
      "(" ++ e ++ String.join (rest.map fun s => ", " ++ s) ++ ")" ∧
    vecToString [] = ")" := by
  refine ⟨?_, rfl⟩
  unfold vecToString
  rw [List.length_cons, List.range_succ_eq_map, List.foldl_cons, List.foldl_map]
  simp only [List.getD_cons_zero, List.getD_cons_succ, String.empty_append, gt_iff_lt,
    Nat.lt_irrefl, Nat.succ_pos, ite_true, ite_false, if_true, if_false]
  rw [foldl_append_shift
    (fun j => ", " ++ rest.getD j "") (List.range rest.length) ("(" ++ e),
    join_pieces, String.append_assoc, String.append_assoc]

/-- Counterexample to claim C2 as stated: parent with
`width = stride = 2^31`, `height = 3` over `2^32 + 2^31` cells, view on the
in-parent rectangle `(0,0)-(1,2)`.  The view's 32-bit unsigned fill cursor
wraps for the third row (`(2^31 + 2^31) mod 2^32 = 0`), so the program
rewrites row 0 instead of writing rectangle pixel `(0, 2)` at parent offset
`2 * 2^31 + 0 = 2^32`, which keeps its old value `0` instead of `7`. -/
theorem subview_fill_effect_refuted :
    (SpanCanvas.fill
      ((Canvas.mk (List.replicate (2 ^ 32 + 2 ^ 31) (0 : Int)) (2 ^ 31) 3
        (2 ^ 31)).subcanvas_view 0 0 1 2)
      (List.replicate (2 ^ 32 + 2 ^ 31) (0 : Int)) 7).getD (2 * 2 ^ 31 + 0) 0 ≠ 7 := by
  rw [show (Canvas.mk (List.replicate (2 ^ 32 + 2 ^ 31) (0 : Int)) (2 ^ 31) 3
      (2 ^ 31)).subcanvas_view 0 0 1 2 = SpanCanvas.mk 0 (2 ^ 31) 2 3 (2 ^ 31) by decide]
  simp only [SpanCanvas.fill]
  rw [fillLoop_pos (2 ^ 32) (by norm_num), if_pos (show dec32 3 < 3 by decide),
    show dec32 3 = 2 by decide, show ((0 + 2 ^ 31) % 2 ^ 32 : Nat) = 2 ^ 31 by decide]
  rw [fillLoop_pos (2 ^ 32 - 1) (by norm_num), if_pos (show dec32 2 < 3 by decide),
    show dec32 2 = 1 by decide, show ((2 ^ 31 + 2 ^ 31) % 2 ^ 32 : Nat) = 0 by decide]
  rw [fillLoop_pos (2 ^ 32 - 1 - 1) (by norm_num), if_pos (show dec32 1 < 3 by decide),
    show dec32 1 = 0 by decide, show ((0 + 2 ^ 31) % 2 ^ 32 : Nat) = 2 ^ 31 by decide]
  rw [fillLoop_pos (2 ^ 32 - 1 - 1 - 1) (by norm_num),
    if_neg (show ¬(dec32 0 < 3) by decide)]
  rw [getD_writeRow, if_neg (by omega), getD_writeRow, if_neg (by omega),
    getD_writeRow, if_neg (by omega)]
  rw [List.getD_eq_getElem?_getD, List.getElem?_replicate, if_pos (by omega)]
  decide

/-- Claim C2 (amended): for a parent whose pixel extent
`stride*(height-1)+width` fits the 32-bit unsigned index space (so the
view's unsigned fill cursor never wraps), filling the view returned by
`subcanvas_view` on corners `(x1,y1)`, `(x2,y2)` with `x1 < x2`, `y1 < y2`
inside the parent writes `v` to exactly the parent pixels `x1 ≤ x ≤ x2`,
`y1 ≤ y ≤ y2` and leaves every other element of the parent's backing
storage unchanged. -/
theorem subview_fill_effect {α : Type} (c : Canvas α) (x1 y1 x2 y2 : Nat) (v d : α)
    (hx : x1 < x2) (hy : y1 < y2) (hxw : x2 < c.width) (hyh : y2 < c.height)
    (hws : c.width ≤ c.stride) (hh : c.height < 2 ^ 32) (hs32 : c.stride < 2 ^ 32)
    (hlen : c.stride * (c.height - 1) + c.width ≤ c.data.length)
    (hfit : c.stride * (c.height - 1) + c.width ≤ 2 ^ 32) :
    (∀ x y, x1 ≤ x → x ≤ x2 → y1 ≤ y → y ≤ y2 →
      (SpanCanvas.fill (c.subcanvas_view x1 y1 x2 y2) c.data v).getD
        (y * c.stride + x) d = v) ∧
    (∀ p, (∀ x y, x1 ≤ x → x ≤ x2 → y1 ≤ y → y ≤ y2 → p ≠ y * c.stride + x) →
      (SpanCanvas.fill (c.subcanvas_view x1 y1 x2 y2) c.data v).getD p d
        = c.data.getD p d) := by
  have h0 : ¬(x1 = x2 ∧ y1 = y2) := by omega
  have hxx : ¬(x1 > x2) := by omega
  have hyy : ¬(y1 > y2) := by omega
  have hcomm : (c.height - 1) * c.stride = c.stride * (c.height - 1) := Nat.mul_comm _ _
  have hyb : y1 * c.stride ≤ (c.height - 1) * c.stride :=
    Nat.mul_le_mul_right c.stride (by omega)
  have hoff : y1 * c.stride + x1 < 2 ^ 32 := by omega
  have hview : c.subcanvas_view x1 y1 x2 y2 =
      SpanCanvas.mk (y1 * c.stride + x1) ((c.height * c.stride) % 2 ^ 32) (x2 - x1 + 1)
        (y2 - y1 + 1) c.stride := by
    simp only [Canvas.subcanvas_view, if_neg h0, if_neg hxx, if_neg hyy]
    rw [Nat.mod_eq_of_lt hoff, Nat.mod_eq_of_lt (show x2 - x1 + 1 < 2 ^ 32 by omega),
      Nat.mod_eq_of_lt (show y2 - y1 + 1 < 2 ^ 32 by omega)]
  rw [hview]
  simp only [SpanCanvas.fill]
  rw [fillLoop_eq_fillRows (x2 - x1 + 1) (y2 - y1 + 1) c.stride v (by omega)
    (y2 - y1 + 1) (2 ^ 32) c.data (y1 * c.stride + x1) (Nat.le_refl _) (by omega)
    (by
      intro r hr
      have h1 : (y1 + r) * c.stride ≤ (c.height - 1) * c.stride :=
        Nat.mul_le_mul_right c.stride (by omega)
      rw [Nat.add_mul] at h1
      omega)]
  constructor
  · intro x y hax hbx hay hby
    obtain ⟨cc, rfl⟩ : ∃ cc, x = x1 + cc := ⟨x - x1, by omega⟩
    obtain ⟨r, rfl⟩ : ∃ r, y = y1 + r := ⟨y - y1, by omega⟩
    exact getD_fillRows_touched (y2 - y1 + 1) c.data (y1 * c.stride + x1) (x2 - x1 + 1)
      c.stride v d _ r cc (by omega) (by omega) (by rw [Nat.add_mul]; omega)
      (pix_lt c.stride c.width c.height c.data.length (x1 + cc) (y1 + r) (by omega)
        (by omega) hlen)
  · intro p hp
    apply getD_fillRows_untouched
    intro r hr cc hcc hcon
    exact hp (x1 + cc) (y1 + r) (by omega) (by omega) (by omega) (by omega)
      (by rw [Nat.add_mul]; omega)

/-- Witness for C2: a 3×3 parent with stride 3 over 9 zeroed cells, view on
rectangle (0,0)-(1,1) filled with 7; pixel (1,1) (offset 4) becomes 7 and
the cell at offset 8 keeps its old value 0. -/
theorem subview_fill_effect_holds :
    (SpanCanvas.fill
      ((Canvas.mk (List.replicate 9 (0 : Int)) 3 3 3).subcanvas_view 0 0 1 1)
      (List.replicate 9 (0 : Int)) 7).getD 4 0 = 7 ∧
    (SpanCanvas.fill
      ((Canvas.mk (List.replicate 9 (0 : Int)) 3 3 3).subcanvas_view 0 0 1 1)
      (List.replicate 9 (0 : Int)) 7).getD 8 0 = 0 := by
  have h := subview_fill_effect (Canvas.mk (List.replicate 9 (0 : Int)) 3 3 3) 0 0 1 1 7 0
    (by decide) (by decide) (by decide) (by decide) (by decide) (by decide) (by decide)
    (by decide) (by decide)
  constructor
  · have h1 := h.1 1 1 (by decide) (by decide) (by decide) (by decide)
    norm_num at h1
    exact h1
  · have h2 := h.2 8 (by
      intro x y hax hbx hay hby
      show (8 : Nat) ≠ y * 3 + x
      omega)
    norm_num at h2
    exact h2

theorem mask_shift_extract (x n k : Nat) :
    (x &&& ((2 ^ n - 1) <<< k)) >>> k = (x >>> k) &&& (2 ^ n - 1) := by
  apply Nat.eq_of_testBit_eq
  intro j
  simp only [Nat.testBit_shiftRight, Nat.testBit_and, Nat.testBit_shiftLeft,
    Nat.testBit_two_pow_sub_one, ge_iff_le, Nat.le_add_right, decide_True,
    Bool.true_and, Nat.add_sub_cancel_left]

theorem encode_rgb_eq_add (r g b : Nat) (hr : r ≤ 255) (hg : g ≤ 255) (hb : b ≤ 255) :
    encode_rgb r g b = 4278190080 + b * 65536 + g * 256 + r := by
  unfold encode_rgb
  have e1 : (2 : Nat) ^ 8 = 256 := by norm_num
  have e2 : (2 : Nat) ^ (2 * 8) = 65536 := by norm_num
  rw [Nat.shiftLeft_eq, Nat.shiftLeft_eq, e1, e2]
  have h1 : r ||| g * 256 = g * 256 + r := by
    rw [Nat.or_comm, Nat.mul_comm g 256]
    exact (Nat.mul_add_lt_is_or (show r < 2 ^ 8 by omega) g).symm
  rw [h1]
  have h2 : (g * 256 + r) ||| b * 65536 = b * 65536 + (g * 256 + r) := by
    rw [Nat.or_comm, Nat.mul_comm b 65536]
    exact (Nat.mul_add_lt_is_or (show g * 256 + r < 2 ^ 16 by omega) b).symm
  rw [h2]
  have h3 : (b * 65536 + (g * 256 + r)) ||| 0xff000000 =
      4278190080 + (b * 65536 + (g * 256 + r)) := by
    rw [Nat.or_comm, show (0xff000000 : Nat) = 2 ^ 24 * 255 by norm_num]
    exact (Nat.mul_add_lt_is_or
      (show b * 65536 + (g * 256 + r) < 2 ^ 24 by omega) 255).symm
  rw [h3]
  omega

/-- Claim C8: for all byte values, `decode_rgb (encode_rgb r g b) = (r, g, b)`,
with `encode_rgb` packing the channels as `R | (G << 8) | (B << 16) | (0xFF << 24)`
and `decode_rgb` extracting the low three bytes, discarding the top byte. -/
theorem encode_decode_round_trip (r g b : Nat) (hr : r ≤ 255) (hg : g ≤ 255)
    (hb : b ≤ 255) :
    decode_rgb (encode_rgb r g b) = (r, g, b) ∧
    encode_rgb r g b = r ||| (g <<< 8) ||| (b <<< 16) ||| (0xFF <<< 24) := by
  refine ⟨?_, rfl⟩
  rw [encode_rgb_eq_add r g b hr hg hb]
  unfold decode_rgb
  have hch1 : ((4278190080 + b * 65536 + g * 256 + r) &&& 0x000000FF) >>> (8 * 0) = r := by
    rw [show (8 * 0) = 0 by norm_num, Nat.shiftRight_zero,
      show (0x000000FF : Nat) = 2 ^ 8 - 1 by norm_num, Nat.and_pow_two_sub_one_eq_mod,
      show (2 : Nat) ^ 8 = 256 by norm_num]
    omega
  have hch2 : ((4278190080 + b * 65536 + g * 256 + r) &&& 0x0000FF00) >>> (8 * 1) = g := by
    rw [show (8 * 1) = 8 by norm_num,
      show (0x0000FF00 : Nat) = (2 ^ 8 - 1) <<< 8 by decide, mask_shift_extract,
      Nat.shiftRight_eq_div_pow, Nat.and_pow_two_sub_one_eq_mod,
      show (2 : Nat) ^ 8 = 256 by norm_num]
    omega
  have hch3 : ((4278190080 + b * 65536 + g * 256 + r) &&& 0x00FF0000) >>> (8 * 2) = b := by
    rw [show (8 * 2) = 16 by norm_num,
      show (0x00FF0000 : Nat) = (2 ^ 8 - 1) <<< 16 by decide, mask_shift_extract,
      Nat.shiftRight_eq_div_pow, Nat.and_pow_two_sub_one_eq_mod,
      show (2 : Nat) ^ 8 = 256 by norm_num, show (2 : Nat) ^ 16 = 65536 by norm_num]
    omega
  simp only [Prod.mk.injEq]
  exact ⟨hch1, hch2, hch3⟩

/-- Witness for C8 at a concrete byte triple. -/
theorem encode_decode_round_trip_holds :
    decode_rgb (encode_rgb 12 200 255) = (12, 200, 255) :=
  (encode_decode_round_trip 12 200 255 (by decide) (by decide) (by decide)).1

/-- Claim C7: serialising the 2×1 canvas with pixels `encode_rgb 255 0 0`
and `encode_rgb 0 255 0` through `decode_rgb` yields exactly the bytes of
`"P6\n2 1\n255\n"` followed by `FF 00 00 00 FF 00`, nothing more. -/
theorem save_as_ppm_2x1_example :
    save_as_ppm (Canvas.mk [encode_rgb 255 0 0, encode_rgb 0 255 0] 2 1 2) decode_rgb =
      [80, 54, 10, 50, 32, 49, 10, 50, 53, 53, 10, 255, 0, 0, 0, 255, 0] := by decide
